import Mathlib

/-
A shallow embedding of the feor path tracer's core: the vector/ray data model,
the geometry layer (Sphere, Plane), the scene nearest-hit aggregation, the
material scattering layer, and the recursive radiance integrator, together
with theorems settling the specification's claims.

Modelling conventions:
* `Fpr` (Rust `f64`) is idealized as the real numbers; IEEE `+infinity`
  occurs in the source only as the default for an absent `tmax` bound and is
  modelled by keeping the bound as an `Option Fpr` whose `none` no finite `t`
  exceeds (`gtTmax`).
* The renderer's random draws (`random_in_sphere()`, `rand::random()`) are
  passed to each `response` as explicit oracle arguments (`RandSrc`).
* The crate root of the current tree (defining `Chroma`, `Ray::new_chroma`
  and the integrator that consumes `materials.rs`'s `Vec<(Colour,Ray)>`
  responses) is not among the given sources; those pieces are modelled from
  the specification and marked as such. `src/src/main.rs` is an older
  monolithic revision; where it and the modular files overlap, the modular
  files (`geometry.rs`, `materials.rs`, `scene.rs`) are followed.
-/

noncomputable section

namespace Feor

open Classical

/-- `Fpr = f64` (main.rs), idealized as the reals. -/
abbrev Fpr := ℝ

/-- `Vector3 = na::Vector3<Fpr>`: a 3-component vector. -/
@[ext]
structure Vector3 where
  x : Fpr
  y : Fpr
  z : Fpr

/-- `Colour = Vector3` (main.rs). -/
abbrev Colour := Vector3

namespace Vector3

/-- Componentwise addition. -/
def add (v w : Vector3) : Vector3 := ⟨v.x + w.x, v.y + w.y, v.z + w.z⟩

instance : Add Vector3 := ⟨add⟩

/-- Componentwise subtraction. -/
def sub (v w : Vector3) : Vector3 := ⟨v.x - w.x, v.y - w.y, v.z - w.z⟩

instance : Sub Vector3 := ⟨sub⟩

/-- Componentwise negation. -/
def neg (v : Vector3) : Vector3 := ⟨-v.x, -v.y, -v.z⟩

instance : Neg Vector3 := ⟨neg⟩

/-- Scalar multiplication `a * v`. -/
def smul (a : Fpr) (v : Vector3) : Vector3 := ⟨a * v.x, a * v.y, a * v.z⟩

instance : SMul Fpr Vector3 := ⟨smul⟩

@[simp] lemma add_def (v w : Vector3) : v + w = ⟨v.x + w.x, v.y + w.y, v.z + w.z⟩ := rfl

@[simp] lemma sub_def (v w : Vector3) : v - w = ⟨v.x - w.x, v.y - w.y, v.z - w.z⟩ := rfl

@[simp] lemma neg_def (v : Vector3) : -v = ⟨-v.x, -v.y, -v.z⟩ := rfl

@[simp] lemma smul_def (a : Fpr) (v : Vector3) : a • v = ⟨a * v.x, a * v.y, a * v.z⟩ := rfl

/-- `Colour::zeros()`. -/
def zeros : Vector3 := ⟨0, 0, 0⟩

/-- `v.dot(&w)`. -/
def dot (v w : Vector3) : Fpr := v.x * w.x + v.y * w.y + v.z * w.z

/-- `v.cross(&w)`. -/
def cross (v w : Vector3) : Vector3 :=
  ⟨v.y * w.z - v.z * w.y, v.z * w.x - v.x * w.z, v.x * w.y - v.y * w.x⟩

/-- `v.norm_squared()`. -/
def norm_squared (v : Vector3) : Fpr := v.dot v

/-- `v.norm()`. -/
def norm (v : Vector3) : Fpr := Real.sqrt v.norm_squared

/-- `v.normalize()`: nalgebra divides by the norm componentwise. -/
def normalize (v : Vector3) : Vector3 := ⟨v.x / v.norm, v.y / v.norm, v.z / v.norm⟩

/-- `v.component_mul(&w)`. -/
def component_mul (v w : Vector3) : Vector3 := ⟨v.x * w.x, v.y * w.y, v.z * w.z⟩

/-- Indexing `v[c]` for `c : usize` in `0..3`. -/
def get (v : Vector3) : Fin 3 → Fpr
  | ⟨0, _⟩ => v.x
  | ⟨1, _⟩ => v.y
  | ⟨2, _⟩ => v.z

/-- The update `v[c] = val` for `c : usize` in `0..3`. -/
def setChannel (v : Vector3) : Fin 3 → Fpr → Vector3
  | ⟨0, _⟩, val => ⟨val, v.y, v.z⟩
  | ⟨1, _⟩, val => ⟨v.x, val, v.z⟩
  | ⟨2, _⟩, val => ⟨v.x, v.y, val⟩

@[simp] lemma get_zero (v : Vector3) : v.get 0 = v.x := rfl

@[simp] lemma get_one (v : Vector3) : v.get 1 = v.y := rfl

@[simp] lemma get_two (v : Vector3) : v.get 2 = v.z := rfl

@[simp] lemma setChannel_zero (v : Vector3) (a : Fpr) : v.setChannel 0 a = ⟨a, v.y, v.z⟩ := rfl

@[simp] lemma setChannel_one (v : Vector3) (a : Fpr) : v.setChannel 1 a = ⟨v.x, a, v.z⟩ := rfl

@[simp] lemma setChannel_two (v : Vector3) (a : Fpr) : v.setChannel 2 a = ⟨v.x, v.y, a⟩ := rfl

lemma norm_squared_nonneg (v : Vector3) : 0 ≤ v.norm_squared := by
  unfold norm_squared dot
  nlinarith [sq_nonneg v.x, sq_nonneg v.y, sq_nonneg v.z]

lemma dot_self_nonneg (v : Vector3) : 0 ≤ v.dot v := norm_squared_nonneg v

lemma dot_self_pos (v : Vector3) (hv : v ≠ zeros) : 0 < v.dot v := by
  rcases lt_or_eq_of_le (dot_self_nonneg v) with h | h
  · exact h
  · exfalso
    apply hv
    unfold dot at h
    have hx : v.x = 0 := by nlinarith [sq_nonneg v.x, sq_nonneg v.y, sq_nonneg v.z]
    have hy : v.y = 0 := by nlinarith [sq_nonneg v.x, sq_nonneg v.y, sq_nonneg v.z]
    have hz : v.z = 0 := by nlinarith [sq_nonneg v.x, sq_nonneg v.y, sq_nonneg v.z]
    unfold zeros
    ext <;> assumption

end Vector3

/-- Modelled from the spec: the chroma channel tag carried by every ray
(`White` = all channels, `Red`/`Green`/`Blue` = split by a dispersive
interaction); defined in the crate root, which is not among the sources. -/
inductive Chroma where
  | Red
  | Green
  | Blue
  | White
  deriving DecidableEq

/-- Modelled from the spec: `Chroma::from(c)` for a channel index `c`, the
"chroma tag matching that channel" used by `DispersiveDielectric::response`. -/
def Chroma.fromIdx : Fin 3 → Chroma
  | ⟨0, _⟩ => Chroma.Red
  | ⟨1, _⟩ => Chroma.Green
  | ⟨2, _⟩ => Chroma.Blue

/-- `Ray { origin, direction, chroma }`. -/
structure Ray where
  origin : Vector3
  direction : Vector3
  chroma : Chroma

/-- Modelled from the spec: `Ray::new` tags the ray `White`, the default for
camera-primary rays. -/
def Ray.new (origin direction : Vector3) : Ray := ⟨origin, direction, Chroma.White⟩

/-- Modelled from the spec: `Ray::new_chroma` constructs a ray carrying an
explicit chroma tag (used by `DispersiveDielectric::response`). -/
def Ray.new_chroma (origin direction : Vector3) (chroma : Chroma) : Ray :=
  ⟨origin, direction, chroma⟩

/-- `Ray::at`: `origin + t * direction`. -/
def Ray.at (r : Ray) (t : Fpr) : Vector3 := r.origin + t • r.direction

/-- The `Material` trait objects of materials.rs, as a closed variant set. -/
inductive Material where
  | Diffuse (colour : Colour)
  | Metal (colour : Colour)
  | Dielectric (colour : Colour) (refractive_index : Fpr)
  | DispersiveDielectric (colour : Colour) (refractive_indicies : Fin 3 → Fpr)

/-- `Hit { t, position, normal, material }`. -/
structure Hit where
  t : Fpr
  position : Vector3
  normal : Vector3
  material : Material

/-- The random draws one `response` call may consume: `in_sphere` is the result
of `random_in_sphere()` (Diffuse) and `unif c` the `rand::random()` draw made
while processing colour channel `c` (Dielectric uses channel 0's draw). -/
structure RandSrc where
  in_sphere : Vector3
  unif : Fin 3 → Fpr

/-- `Diffuse::response` (materials.rs): scatter towards
`position + normal + random_in_sphere()`. -/
def Diffuse.response (colour : Colour) (hit : Hit) (rand_in_sphere : Vector3) :
    List (Colour × Ray) :=
  let target := hit.position + hit.normal + rand_in_sphere
  [(colour, Ray.new hit.position (target - hit.position))]

/-- `Metal::response` (materials.rs): mirror reflection of the normalized
incoming direction, absorbed (`vec![]`) unless `raydotnorm < 0`. -/
def Metal.response (colour : Colour) (ray : Ray) (hit : Hit) : List (Colour × Ray) :=
  let raynorm := ray.direction.normalize
  let raydotnorm := raynorm.dot hit.normal
  if raydotnorm < 0 then
    let reflected := raynorm - (2 * raydotnorm) • hit.normal
    [(colour, Ray.new hit.position reflected)]
  else
    []

/-- `Dielectric::reflectance` (materials.rs): Schlick's approximation. -/
def Dielectric.reflectance (cos_theta refrac_ratio : Fpr) : Fpr :=
  let r02 := ((1 - refrac_ratio) / (1 + refrac_ratio)) ^ 2
  r02 + (1 - r02) * (1 - cos_theta) ^ 5

/-- `Dielectric::response` (materials.rs); `rnd` is the `rand::random()`
draw compared against the Schlick reflectance. -/
def Dielectric.response (colour : Colour) (refractive_index : Fpr) (ray : Ray)
    (hit : Hit) (rnd : Fpr) : List (Colour × Ray) :=
  let raynorm := ray.direction.normalize
  let raydotnorm0 := raynorm.dot hit.normal
  let hnormal := if raydotnorm0 > 0 then -hit.normal else hit.normal
  let raydotnorm := if raydotnorm0 > 0 then -raydotnorm0 else raydotnorm0
  let refrac_ratio := if raydotnorm0 > 0 then refractive_index else refractive_index⁻¹
  let cos_theta := min (-raydotnorm) 1
  let sin_theta := Real.sqrt (1 - cos_theta ^ 2)
  let cannot_refract := refrac_ratio * sin_theta > 1
  if cannot_refract ∨ Dielectric.reflectance cos_theta refrac_ratio > rnd then
    let reflected := raynorm - (2 * (raynorm.dot hit.normal)) • hit.normal
    [(colour, Ray.new hit.position reflected)]
  else
    let out_tang := refrac_ratio • (raynorm + cos_theta • hnormal)
    let out_norm := (-Real.sqrt |1 - out_tang.norm_squared|) • hnormal
    let refracted := out_tang + out_norm
    [(colour, Ray.new hit.position refracted)]

/-- `DispersiveDielectric::reflectance` (materials.rs): same Schlick formula,
re-declared on the dispersive material in the source. -/
def DispersiveDielectric.reflectance (cos_theta refrac_ratio : Fpr) : Fpr :=
  let r02 := ((1 - refrac_ratio) / (1 + refrac_ratio)) ^ 2
  r02 + (1 - r02) * (1 - cos_theta) ^ 5

/-- `DispersiveDielectric::response` (materials.rs): per-channel dielectric
physics; a `White` ray is split over channels `[0,1,2]`, an already-split ray
keeps its single channel. `rnd c` is the `rand::random()` draw made while
processing channel `c`. -/
def DispersiveDielectric.response (colour : Colour) (refractive_indicies : Fin 3 → Fpr)
    (ray : Ray) (hit : Hit) (rnd : Fin 3 → Fpr) : List (Colour × Ray) :=
  let raynorm := ray.direction.normalize
  let raydotnorm0 := raynorm.dot hit.normal
  let hnormal := if raydotnorm0 > 0 then -hit.normal else hit.normal
  let raydotnorm := if raydotnorm0 > 0 then -raydotnorm0 else raydotnorm0
  let refrac_ratios : Fin 3 → Fpr :=
    if raydotnorm0 > 0 then refractive_indicies else fun i => (refractive_indicies i)⁻¹
  let cos_theta := min (-raydotnorm) 1
  let sin_theta := Real.sqrt (1 - cos_theta ^ 2)
  let chromas : List (Fin 3) :=
    match ray.chroma with
    | Chroma.Red => [0]
    | Chroma.Green => [1]
    | Chroma.Blue => [2]
    | Chroma.White => [0, 1, 2]
  chromas.map (fun c =>
    let chroma := Chroma.fromIdx c
    let colour' := Vector3.zeros.setChannel c (colour.get c)
    let cannot_refract := refrac_ratios c * sin_theta > 1
    if cannot_refract ∨ DispersiveDielectric.reflectance cos_theta (refrac_ratios c) > rnd c then
      let reflected := raynorm - (2 * (raynorm.dot hit.normal)) • hit.normal
      (colour', Ray.new_chroma hit.position reflected chroma)
    else
      let out_tang := refrac_ratios c • (raynorm + cos_theta • hnormal)
      let out_norm := (-Real.sqrt |1 - out_tang.norm_squared|) • hnormal
      let refracted := out_tang + out_norm
      (colour', Ray.new_chroma hit.position refracted chroma))

/-- `Material::response` dispatch over the material variants, drawing its
randomness from `rs`. -/
def Material.response (m : Material) (ray : Ray) (hit : Hit) (rs : RandSrc) :
    List (Colour × Ray) :=
  match m with
  | Material.Diffuse colour => Diffuse.response colour hit rs.in_sphere
  | Material.Metal colour => Metal.response colour ray hit
  | Material.Dielectric colour ri => Dielectric.response colour ri ray hit (rs.unif 0)
  | Material.DispersiveDielectric colour ris =>
      DispersiveDielectric.response colour ris ray hit rs.unif

/-- `t > tmax` with `tmax = tmax_opt.unwrap_or(Fpr::INFINITY)` (geometry.rs):
an absent bound is IEEE `+infinity`, which no real `t` exceeds. -/
def gtTmax (t : Fpr) : Option Fpr → Prop
  | none => False
  | some m => t > m

@[simp] lemma gtTmax_none (t : Fpr) : gtTmax t none = False := rfl

@[simp] lemma gtTmax_some (t m : Fpr) : gtTmax t (some m) = (t > m) := rfl

/-- `Sphere { centre, radius, material }` (geometry.rs). -/
structure Sphere where
  centre : Vector3
  radius : Fpr
  material : Material

namespace Sphere

/-- `oc = ray.origin - self.centre`. -/
def oc (s : Sphere) (ray : Ray) : Vector3 := ray.origin - s.centre

/-- The quadratic coefficient `a = ray.direction.dot(&ray.direction)`. -/
def qa (ray : Ray) : Fpr := ray.direction.dot ray.direction

/-- `half_b = oc.dot(&ray.direction)`. -/
def half_b (s : Sphere) (ray : Ray) : Fpr := (s.oc ray).dot ray.direction

/-- The quadratic coefficient `c = oc.dot(&oc) - radius.powi(2)`. -/
def qc (s : Sphere) (ray : Ray) : Fpr := (s.oc ray).dot (s.oc ray) - s.radius ^ 2

/-- `discriminant = half_b.powi(2) - a*c`. -/
def discriminant (s : Sphere) (ray : Ray) : Fpr := s.half_b ray ^ 2 - qa ray * s.qc ray

/-- The first root tried, `t = (-half_b - dsqrt) / a`. -/
def root1 (s : Sphere) (ray : Ray) : Fpr :=
  (-s.half_b ray - Real.sqrt (s.discriminant ray)) / qa ray

/-- The fallback root, `t = (-half_b + dsqrt) / a`. -/
def root2 (s : Sphere) (ray : Ray) : Fpr :=
  (-s.half_b ray + Real.sqrt (s.discriminant ray)) / qa ray

/-- The `Hit` record a sphere intersection at parameter `t` produces:
normal `(position - centre).normalize()`, never flipped. -/
def mkHit (s : Sphere) (ray : Ray) (t : Fpr) : Hit :=
  ⟨t, ray.at t, (ray.at t - s.centre).normalize, s.material⟩

/-- `Sphere::get_hit` (geometry.rs): negative discriminant means no hit;
otherwise try `root1`, fall back to `root2`, rejecting a root `t` with
`t < tmin || t > tmax` where `tmin` defaults to `0.0001` and `tmax` to
`+infinity`. -/
def get_hit (s : Sphere) (ray : Ray) (tmin_opt tmax_opt : Option Fpr) : Option Hit :=
  if s.discriminant ray < 0 then none
  else if s.root1 ray < tmin_opt.getD 0.0001 ∨ gtTmax (s.root1 ray) tmax_opt then
    if s.root2 ray < tmin_opt.getD 0.0001 ∨ gtTmax (s.root2 ray) tmax_opt then none
    else some (s.mkHit ray (s.root2 ray))
  else some (s.mkHit ray (s.root1 ray))

end Sphere

/-- `Plane { origin, x, y, extents, material, normal }` (geometry.rs);
`extents: [Fpr;2]` is modelled as a pair. -/
structure Plane where
  origin : Vector3
  x : Vector3
  y : Vector3
  extents : Fpr × Fpr
  material : Material
  normal : Vector3

namespace Plane

/-- `Plane::new` (geometry.rs): stores `normal = x.cross(&y)`, not
renormalized. -/
def new (origin x y : Vector3) (extents : Fpr × Fpr) (material : Material) : Plane :=
  ⟨origin, x, y, extents, material, x.cross y⟩

/-- `ln = self.normal.dot(&ray.direction)`. -/
def ln (p : Plane) (ray : Ray) : Fpr := p.normal.dot ray.direction

/-- `t = (self.origin - ray.origin).dot(&self.normal) / ln`. -/
def tHit (p : Plane) (ray : Ray) : Fpr := (p.origin - ray.origin).dot p.normal / p.ln ray

/-- The local first basis coordinate `x = inplane.dot(&self.x)` of the
intersection point. -/
def localX (p : Plane) (ray : Ray) : Fpr := (ray.at (p.tHit ray) - p.origin).dot p.x

/-- The local second basis coordinate `y = inplane.dot(&self.y)`. -/
def localY (p : Plane) (ray : Ray) : Fpr := (ray.at (p.tHit ray) - p.origin).dot p.y

/-- `Plane::get_hit` (geometry.rs): reject a near-parallel ray
(`|ln| < 0.0001`), reject `t` outside the window, then accept only a
strict-interior local-coordinate pair. -/
def get_hit (p : Plane) (ray : Ray) (tmin_opt tmax_opt : Option Fpr) : Option Hit :=
  if |p.ln ray| < 0.0001 then none
  else if p.tHit ray < tmin_opt.getD 0.0001 ∨ gtTmax (p.tHit ray) tmax_opt then none
  else if 0 < p.localX ray ∧ p.localX ray < p.extents.1 ∧
      0 < p.localY ray ∧ p.localY ray < p.extents.2 then
    some ⟨p.tHit ray, ray.at (p.tHit ray), p.normal, p.material⟩
  else none

end Plane

/-- The `RenderedBody` trait objects a scene holds (geometry.rs). -/
inductive Body where
  | sphere : Sphere → Body
  | plane : Plane → Body

/-- `RenderedBody::get_hit` dispatch. -/
def Body.get_hit (b : Body) (ray : Ray) (tmin_opt tmax_opt : Option Fpr) : Option Hit :=
  match b with
  | Body.sphere s => s.get_hit ray tmin_opt tmax_opt
  | Body.plane p => p.get_hit ray tmin_opt tmax_opt

/-- `RenderedBody::get_material` dispatch. -/
def Body.get_material (b : Body) : Material :=
  match b with
  | Body.sphere s => s.material
  | Body.plane p => p.material

/-- `ViewPort` (camera.rs). -/
structure ViewPort where
  aspect_ratio : Fpr
  width : Fpr
  height : Fpr

/-- `ViewPort::new` (camera.rs): `width = aspect_ratio * height`. -/
def ViewPort.new (aspect_ratio height : Fpr) : ViewPort :=
  ⟨aspect_ratio, aspect_ratio * height, height⟩

/-- `Camera` (camera.rs). -/
structure Camera where
  origin : Vector3
  focal_length : Fpr
  viewport : ViewPort
  horizontal : Vector3
  vertical : Vector3
  image_origin : Vector3

/-- `Camera::new` (camera.rs). -/
def Camera.new (origin : Vector3) (focal_length : Fpr) (viewport : ViewPort)
    (horizontal vertical : Vector3) : Camera :=
  let h := viewport.width • horizontal.normalize
  let v := viewport.height • vertical.normalize
  let image_origin := origin - (1 / 2 : Fpr) • h - (1 / 2 : Fpr) • v - ⟨0, 0, focal_length⟩
  ⟨origin, focal_length, viewport, h, v, image_origin⟩

/-- `Camera::get_ray` (camera.rs). -/
def Camera.get_ray (c : Camera) (u v : Fpr) : Ray :=
  Ray.new c.origin (c.image_origin + u • c.horizontal + v • c.vertical - c.origin)

/-- `Scene { bodies, camera }` (scene.rs). -/
structure Scene where
  bodies : List Body
  camera : Camera

/-- The `for` loop of `Scene::get_hit` (scene.rs): `closest` is the shrinking
bound (initially `tmax`, whose absent value is IEEE `+infinity`, modelled by
`none`); each body is queried with `(tmin, closest)` and a hit updates both
`closest` and the running best. -/
def Scene.get_hit_go (ray : Ray) (tmin : Option Fpr) :
    List Body → Option Fpr → Option Hit → Option Hit
  | [], _, hit => hit
  | b :: rest, closest, hit =>
    match b.get_hit ray tmin closest with
    | some h => Scene.get_hit_go ray tmin rest (some h.t) (some h)
    | none => Scene.get_hit_go ray tmin rest closest hit

/-- `Scene::get_hit` (scene.rs). -/
def Scene.get_hit (s : Scene) (ray : Ray) (tmin tmax : Option Fpr) : Option Hit :=
  Scene.get_hit_go ray tmin s.bodies tmax none

/-- `background_colour` (main.rs): vertical gradient between white and sky
blue driven by the normalized direction's `y`. -/
def background_colour (ray : Ray) : Colour :=
  let dirnorm := ray.direction.normalize
  let t := 0.5 * (dirnorm.y + 1)
  (1 - t) • (⟨1, 1, 1⟩ : Colour) + t • (⟨0.5, 0.7, 1.0⟩ : Colour)

/-- Summation of a list of colours (the `sum` of the integrator). -/
def sumColours : List Colour → Colour
  | [] => Vector3.zeros
  | c :: rest => Vector3.add c (sumColours rest)

/-- Modelled from the spec: the crate root's `get_ray_colour` for the
`Vec<(Colour,Ray)>` material interface is not among the sources (main.rs is an
older single-sample revision). Spec 4.4: depth 0 is black; a miss is the
background gradient; a hit sums, over every `(attenuation, scattered)`
response pair, the recursive colour at `depth-1` multiplied componentwise by
the attenuation. The random draws are supplied by an oracle `rng` indexed by
the list of branch choices taken so far (so each recursive branch consumes
its own independent draws). -/
def get_ray_colour (scene : Scene) : Ray → (List ℕ → RandSrc) → ℕ → Colour
  | _, _, 0 => Vector3.zeros
  | ray, rng, depth + 1 =>
    match Scene.get_hit scene ray none none with
    | some hit =>
        sumColours ((Material.response hit.material ray hit (rng [])).enum.map
          (fun p => Vector3.component_mul
            (get_ray_colour scene p.2.2 (fun path => rng (p.1 :: path)) depth) p.2.1))
    | none => background_colour ray

/-- `W1` is a sub-window bound of `W2`: every `t` the looser bound `W2`
rejects, the tighter bound `W1` rejects as well (`none` is `+infinity`). -/
def tmaxSub : Option Fpr → Option Fpr → Prop
  | _, none => True
  | none, some _ => False
  | some m, some M => m ≤ M

/- Concrete fixtures used by witnesses and counterexamples. -/

/-- A red diffuse material. -/
def matRed : Material := Material.Diffuse ⟨1, 0, 0⟩

/-- A blue diffuse material. -/
def matBlue : Material := Material.Diffuse ⟨0, 0, 1⟩

/-- A ray from the origin along `-z`. -/
def testRay : Ray := Ray.new ⟨0, 0, 0⟩ ⟨0, 0, -1⟩

/-- A unit sphere at `(0,0,-3)` carrying `matRed`. -/
def sphRed : Sphere := ⟨⟨0, 0, -3⟩, 1, matRed⟩

/-- The same unit sphere at `(0,0,-3)` carrying `matBlue`. -/
def sphBlue : Sphere := ⟨⟨0, 0, -3⟩, 1, matBlue⟩

/-- The hit `testRay` scores on `sphRed` (at `t = 2`). -/
def hitRed : Hit := ⟨2, ⟨0, 0, -2⟩, ⟨0, 0, 1⟩, matRed⟩

/-- The hit `testRay` scores on `sphBlue` (at the same `t = 2`). -/
def hitBlue : Hit := ⟨2, ⟨0, 0, -2⟩, ⟨0, 0, 1⟩, matBlue⟩

/-- A camera value (scenes carry one; the nearest-hit query ignores it). -/
def camTest : Camera := Camera.new ⟨0, 0, 0⟩ 1 (ViewPort.new 1 1) ⟨1, 0, 0⟩ ⟨0, 1, 0⟩

/-- A scene holding the two coincident spheres, red first. -/
def sceneRB : Scene := ⟨[Body.sphere sphRed, Body.sphere sphBlue], camTest⟩

/-- A scene holding only the red sphere. -/
def sceneRed : Scene := ⟨[Body.sphere sphRed], camTest⟩

/-- A bounded plane with a non-unit first axis, so `normal = x × y = (0,0,2)`. -/
def planeTest : Plane := Plane.new ⟨0, 0, 0⟩ ⟨2, 0, 0⟩ ⟨0, 1, 0⟩ (2, 2) matRed

/-- A ray hitting `planeTest` at `t = 1`. -/
def rayPlane : Ray := Ray.new ⟨1 / 2, 1 / 2, 1⟩ ⟨0, 0, -1⟩

/-- The hit `rayPlane` scores on `planeTest`: its normal is `(0,0,2)`. -/
def hitPlane : Hit := ⟨1, ⟨1 / 2, 1 / 2, 0⟩, ⟨0, 0, 2⟩, matRed⟩

/-- A fixed random draw bundle for material witnesses. -/
def rs0 : RandSrc := ⟨Vector3.zeros, fun _ => 0⟩

/-- A fixed random oracle for integrator witnesses. -/
def rng0 : List ℕ → RandSrc := fun _ => rs0

/-- A `White` ray for the dispersive counterexample. -/
def cexRayWhite : Ray := Ray.new_chroma ⟨0, 0, 0⟩ ⟨0, 0, -1⟩ Chroma.White

/-- An all-black dispersive material: every per-channel attenuation it emits
is the zero vector. -/
def cexDispersive : Material := Material.DispersiveDielectric Vector3.zeros (fun _ => 3 / 2)

/-- A hit record on `cexDispersive`. -/
def cexHit : Hit := ⟨1, ⟨0, 0, -1⟩, ⟨0, 0, 1⟩, cexDispersive⟩

/- Window-bound order lemmas. -/

lemma tmaxSub_refl (W : Option Fpr) : tmaxSub W W := by
  cases W <;> simp [tmaxSub]

lemma gtTmax_of_tmaxSub {W1 W2 : Option Fpr} {t : Fpr} (hsub : tmaxSub W1 W2)
    (ht : gtTmax t W2) : gtTmax t W1 := by
  cases W2 with
  | none => simp [gtTmax] at ht
  | some M =>
    cases W1 with
    | none => simp [tmaxSub] at hsub
    | some m => exact lt_of_le_of_lt hsub ht

lemma gtTmax_mono {t t' : Fpr} {W : Option Fpr} (htt : t ≤ t') (ht : gtTmax t W) :
    gtTmax t' W := by
  cases W with
  | none => simp [gtTmax] at ht
  | some M => exact lt_of_lt_of_le ht htt

lemma tmaxSub_of_not_gtTmax {t : Fpr} {W : Option Fpr} (h : ¬ gtTmax t W) :
    tmaxSub (some t) W := by
  cases W with
  | none => trivial
  | some M => exact le_of_not_lt h

/- Sphere intersection lemmas. -/

lemma Sphere.qa_nonneg (ray : Ray) : 0 ≤ Sphere.qa ray :=
  Vector3.dot_self_nonneg ray.direction

lemma Sphere.root1_le_root2 (s : Sphere) (ray : Ray) : s.root1 ray ≤ s.root2 ray := by
  unfold Sphere.root1 Sphere.root2
  rcases eq_or_lt_of_le (Sphere.qa_nonneg ray) with ha | ha
  · rw [← ha]
    simp
  · have hs : 0 ≤ Real.sqrt (s.discriminant ray) := Real.sqrt_nonneg _
    exact (div_le_div_iff_of_pos_right ha).mpr (by linarith)

@[simp] lemma Sphere.mkHit_t (s : Sphere) (ray : Ray) (t : Fpr) : (s.mkHit ray t).t = t := rfl

/-- Any sphere hit's `t` lies in the requested window. -/
lemma Sphere.sphere_hit_t_bounds {s : Sphere} {ray : Ray} {tminO tmaxO : Option Fpr} {h : Hit}
    (hh : s.get_hit ray tminO tmaxO = some h) :
    tminO.getD 0.0001 ≤ h.t ∧ ¬ gtTmax h.t tmaxO := by
  unfold Sphere.get_hit at hh
  split_ifs at hh with h1 h2 h3
  · cases hh
    push_neg at h3
    simpa using ⟨h3.1, h3.2⟩
  · cases hh
    push_neg at h2
    simpa using ⟨h2.1, h2.2⟩

/-- A sphere hit inside a tighter `tmax` bound is returned unchanged under any
looser bound. -/
lemma Sphere.sphere_hit_widen {s : Sphere} {ray : Ray} {tminO W1 W2 : Option Fpr} {h : Hit}
    (hsub : tmaxSub W1 W2) (hh : s.get_hit ray tminO W1 = some h) :
    s.get_hit ray tminO W2 = some h := by
  unfold Sphere.get_hit at hh ⊢
  split_ifs at hh with h1 h2 h3
  · push_neg at h3
    have hr12 := Sphere.root1_le_root2 s ray
    have hroot1 : s.root1 ray < tminO.getD 0.0001 := by
      rcases h2 with hc | hc
      · exact hc
      · exact absurd (gtTmax_mono hr12 hc) h3.2
    rw [if_neg h1, if_pos (Or.inl hroot1),
      if_neg (by push_neg; exact ⟨h3.1, fun hg => h3.2 (gtTmax_of_tmaxSub hsub hg)⟩)]
    exact hh
  · push_neg at h2
    rw [if_neg h1,
      if_neg (by push_neg; exact ⟨h2.1, fun hg => h2.2 (gtTmax_of_tmaxSub hsub hg)⟩)]
    exact hh

/-- A sphere hit whose `t` also clears a tighter `tmax` bound is returned
unchanged under that tighter bound. -/
lemma Sphere.sphere_hit_shrink {s : Sphere} {ray : Ray} {tminO W1 W2 : Option Fpr} {h : Hit}
    (hh : s.get_hit ray tminO W2 = some h) (hW : ¬ gtTmax h.t W1) :
    s.get_hit ray tminO W1 = some h := by
  unfold Sphere.get_hit at hh ⊢
  split_ifs at hh with h1 h2 h3
  · cases hh
    push_neg at h3
    have hr12 := Sphere.root1_le_root2 s ray
    have hroot1 : s.root1 ray < tminO.getD 0.0001 := by
      rcases h2 with hc | hc
      · exact hc
      · exact absurd (gtTmax_mono hr12 hc) h3.2
    rw [if_neg h1, if_pos (Or.inl hroot1),
      if_neg (by push_neg; exact ⟨h3.1, by simpa using hW⟩)]
  · cases hh
    push_neg at h2
    rw [if_neg h1, if_neg (by push_neg; exact ⟨h2.1, by simpa using hW⟩)]

/- Plane intersection lemmas. -/

/-- Any plane hit's `t` lies in the requested window. -/
lemma Plane.plane_hit_t_bounds {p : Plane} {ray : Ray} {tminO tmaxO : Option Fpr} {h : Hit}
    (hh : p.get_hit ray tminO tmaxO = some h) :
    tminO.getD 0.0001 ≤ h.t ∧ ¬ gtTmax h.t tmaxO := by
  unfold Plane.get_hit at hh
  split_ifs at hh with h1 h2 h3
  cases hh
  push_neg at h2
  exact ⟨h2.1, h2.2⟩

/-- A plane hit inside a tighter `tmax` bound is returned unchanged under any
looser bound. -/
lemma Plane.plane_hit_widen {p : Plane} {ray : Ray} {tminO W1 W2 : Option Fpr} {h : Hit}
    (hsub : tmaxSub W1 W2) (hh : p.get_hit ray tminO W1 = some h) :
    p.get_hit ray tminO W2 = some h := by
  unfold Plane.get_hit at hh ⊢
  split_ifs at hh with h1 h2 h3
  push_neg at h2
  rw [if_neg h1,
    if_neg (by push_neg; exact ⟨h2.1, fun hg => h2.2 (gtTmax_of_tmaxSub hsub hg)⟩),
    if_pos h3]
  exact hh

/-- A plane hit whose `t` also clears a tighter `tmax` bound is returned
unchanged under that tighter bound. -/
lemma Plane.plane_hit_shrink {p : Plane} {ray : Ray} {tminO W1 W2 : Option Fpr} {h : Hit}
    (hh : p.get_hit ray tminO W2 = some h) (hW : ¬ gtTmax h.t W1) :
    p.get_hit ray tminO W1 = some h := by
  unfold Plane.get_hit at hh ⊢
  split_ifs at hh with h1 h2 h3
  cases hh
  push_neg at h2
  rw [if_neg h1, if_neg (by push_neg; exact ⟨h2.1, by simpa using hW⟩), if_pos h3]

/- Body-level dispatch of the window lemmas. -/

lemma Body.body_hit_t_bounds {b : Body} {ray : Ray} {tminO tmaxO : Option Fpr} {h : Hit}
    (hh : b.get_hit ray tminO tmaxO = some h) :
    tminO.getD 0.0001 ≤ h.t ∧ ¬ gtTmax h.t tmaxO := by
  cases b with
  | sphere s => exact Sphere.sphere_hit_t_bounds hh
  | plane p => exact Plane.plane_hit_t_bounds hh

lemma Body.body_hit_widen {b : Body} {ray : Ray} {tminO W1 W2 : Option Fpr} {h : Hit}
    (hsub : tmaxSub W1 W2) (hh : b.get_hit ray tminO W1 = some h) :
    b.get_hit ray tminO W2 = some h := by
  cases b with
  | sphere s => exact Sphere.sphere_hit_widen hsub hh
  | plane p => exact Plane.plane_hit_widen hsub hh

lemma Body.body_hit_shrink {b : Body} {ray : Ray} {tminO W1 W2 : Option Fpr} {h : Hit}
    (hh : b.get_hit ray tminO W2 = some h) (hW : ¬ gtTmax h.t W1) :
    b.get_hit ray tminO W1 = some h := by
  cases b with
  | sphere s => exact Sphere.sphere_hit_shrink hh hW
  | plane p => exact Plane.plane_hit_shrink hh hW

/-- Master characterization of the `Scene::get_hit` loop. Starting from a
state `(closest, acc)` consistent with the original `tmax` bound, the loop
returns `none` only when the accumulator was empty and every remaining body
misses the full window; and a returned hit clears the current bound, is
`t`-minimal among every remaining body's full-window hit, and is either the
surviving accumulator (every remaining hit strictly farther) or the hit of a
remaining body whose successors all hit strictly farther. -/
lemma Scene.get_hit_go_spec (ray : Ray) (tminO tmaxO : Option Fpr) :
    ∀ (bodies : List Body) (closest : Option Fpr) (acc : Option Hit),
      tmaxSub closest tmaxO →
      (acc = none → closest = tmaxO) →
      (∀ h0, acc = some h0 → closest = some h0.t) →
      (Scene.get_hit_go ray tminO bodies closest acc = none →
          acc = none ∧ ∀ b ∈ bodies, b.get_hit ray tminO tmaxO = none) ∧
      (∀ h, Scene.get_hit_go ray tminO bodies closest acc = some h →
        ¬ gtTmax h.t closest ∧
        (∀ b ∈ bodies, ∀ h', b.get_hit ray tminO tmaxO = some h' → h.t ≤ h'.t) ∧
        ((acc = some h ∧
            ∀ b ∈ bodies, ∀ h', b.get_hit ray tminO tmaxO = some h' → h.t < h'.t) ∨
          (∃ pre b post, bodies = pre ++ b :: post ∧
            b.get_hit ray tminO tmaxO = some h ∧
            ∀ b' ∈ post, ∀ h', b'.get_hit ray tminO tmaxO = some h' → h.t < h'.t))) := by
  intro bodies
  induction bodies with
  | nil =>
    intro closest acc hsub hnone hsome
    constructor
    · intro hgo
      exact ⟨hgo, by simp⟩
    · intro h hgo
      have hacc : acc = some h := hgo
      have hcl := hsome h hacc
      refine ⟨by simp [hcl, gtTmax], by simp, Or.inl ⟨hacc, by simp⟩⟩
  | cons b rest ih =>
    intro closest acc hsub hnone hsome
    rcases hbq : b.get_hit ray tminO closest with - | hb
    · have hgo_eq : Scene.get_hit_go ray tminO (b :: rest) closest acc
          = Scene.get_hit_go ray tminO rest closest acc := by
        simp [Scene.get_hit_go, hbq]
      obtain ⟨IH1, IH2⟩ := ih closest acc hsub hnone hsome
      have hmiss : ∀ h', b.get_hit ray tminO tmaxO = some h' → gtTmax h'.t closest := by
        intro h' hfull
        by_contra hg
        have hshr := Body.body_hit_shrink hfull hg
        rw [hbq] at hshr
        exact Option.noConfusion hshr
      constructor
      · intro hgo
        rw [hgo_eq] at hgo
        obtain ⟨hacc, hall⟩ := IH1 hgo
        refine ⟨hacc, ?_⟩
        intro b' hb'
        rcases List.mem_cons.mp hb' with rfl | hmem
        · by_contra hne
          rcases Option.ne_none_iff_exists'.mp hne with ⟨h', hfull⟩
          have hg := hmiss h' hfull
          rw [hnone hacc] at hg
          exact (Body.body_hit_t_bounds hfull).2 hg
        · exact hall b' hmem
      · intro h hgo
        rw [hgo_eq] at hgo
        obtain ⟨hb1, hb2, hb3⟩ := IH2 h hgo
        have hmin_b : ∀ h', b.get_hit ray tminO tmaxO = some h' → h.t < h'.t := by
          intro h' hfull
          by_contra hnlt
          push_neg at hnlt
          exact hb1 (gtTmax_mono hnlt (hmiss h' hfull))
        refine ⟨hb1, ?_, ?_⟩
        · intro b' hb' h' hfull
          rcases List.mem_cons.mp hb' with rfl | hmem
          · exact (hmin_b h' hfull).le
          · exact hb2 b' hmem h' hfull
        · rcases hb3 with ⟨hacc, hstrict⟩ | ⟨pre, bw, post, heq, hfull, hstrict⟩
          · left
            refine ⟨hacc, ?_⟩
            intro b' hb' h' hfull
            rcases List.mem_cons.mp hb' with rfl | hmem
            · exact hmin_b h' hfull
            · exact hstrict b' hmem h' hfull
          · right
            exact ⟨b :: pre, bw, post, by rw [heq]; rfl, hfull, hstrict⟩
    · have hgo_eq : Scene.get_hit_go ray tminO (b :: rest) closest acc
          = Scene.get_hit_go ray tminO rest (some hb.t) (some hb) := by
        simp [Scene.get_hit_go, hbq]
      have hfull_b : b.get_hit ray tminO tmaxO = some hb := Body.body_hit_widen hsub hbq
      have hsub' : tmaxSub (some hb.t) tmaxO :=
        tmaxSub_of_not_gtTmax (Body.body_hit_t_bounds hfull_b).2
      obtain ⟨IH1, IH2⟩ := ih (some hb.t) (some hb) hsub'
        (fun hc => Option.noConfusion hc)
        (by intro h0 hc; cases hc; rfl)
      constructor
      · intro hgo
        rw [hgo_eq] at hgo
        obtain ⟨hacc, -⟩ := IH1 hgo
        exact Option.noConfusion hacc
      · intro h hgo
        rw [hgo_eq] at hgo
        obtain ⟨hb1, hb2, hb3⟩ := IH2 h hgo
        have hhle : h.t ≤ hb.t := le_of_not_lt hb1
        refine ⟨?_, ?_, ?_⟩
        · intro hg
          exact (Body.body_hit_t_bounds hbq).2 (gtTmax_mono hhle hg)
        · intro b' hb' h' hfull
          rcases List.mem_cons.mp hb' with rfl | hmem
          · rw [hfull_b] at hfull
            cases hfull
            exact hhle
          · exact hb2 b' hmem h' hfull
        · rcases hb3 with ⟨hacc, hstrict⟩ | ⟨pre, bw, post, heq, hfull, hstrict⟩
          · right
            obtain rfl := Option.some.inj hacc
            exact ⟨[], b, rest, rfl, hfull_b, hstrict⟩
          · right
            exact ⟨b :: pre, bw, post, by rw [heq]; rfl, hfull, hstrict⟩

/-- If every body misses the full window, the scan returns `none`. -/
lemma Scene.get_hit_go_none (ray : Ray) (tminO tmaxO : Option Fpr) :
    ∀ bodies : List Body,
      (∀ b ∈ bodies, Body.get_hit b ray tminO tmaxO = none) →
      Scene.get_hit_go ray tminO bodies tmaxO none = none := by
  intro bodies
  induction bodies with
  | nil => intro _; rfl
  | cons b rest ih =>
    intro hall
    have hb := hall b (List.mem_cons_self b rest)
    have hgo_eq : Scene.get_hit_go ray tminO (b :: rest) tmaxO none
        = Scene.get_hit_go ray tminO rest tmaxO none := by
      simp [Scene.get_hit_go, hb]
    rw [hgo_eq]
    exact ih (fun b' hb' => hall b' (List.mem_cons_of_mem b hb'))

/- Concrete evaluations. -/

/-- Discriminant of `testRay` against the test sphere: `(-3)^2 - 1*8 = 1`. -/
lemma testSphere_disc (m : Material) :
    Sphere.discriminant ⟨⟨0, 0, -3⟩, 1, m⟩ testRay = 1 := by
  have hqa : Sphere.qa testRay = 1 := by
    norm_num [Sphere.qa, testRay, Ray.new, Vector3.dot]
  have hhb : Sphere.half_b ⟨⟨0, 0, -3⟩, 1, m⟩ testRay = -3 := by
    norm_num [Sphere.half_b, Sphere.oc, testRay, Ray.new, Vector3.dot]
  have hqc : Sphere.qc ⟨⟨0, 0, -3⟩, 1, m⟩ testRay = 8 := by
    norm_num [Sphere.qc, Sphere.oc, testRay, Ray.new, Vector3.dot]
  rw [Sphere.discriminant, hhb, hqa, hqc]
  norm_num

/-- The first root of `testRay` against the test sphere is `2`. -/
lemma testSphere_root1 (m : Material) :
    Sphere.root1 ⟨⟨0, 0, -3⟩, 1, m⟩ testRay = 2 := by
  have hqa : Sphere.qa testRay = 1 := by
    norm_num [Sphere.qa, testRay, Ray.new, Vector3.dot]
  have hhb : Sphere.half_b ⟨⟨0, 0, -3⟩, 1, m⟩ testRay = -3 := by
    norm_num [Sphere.half_b, Sphere.oc, testRay, Ray.new, Vector3.dot]
  rw [Sphere.root1, hhb, testSphere_disc, hqa]
  norm_num

/-- The hit record the test sphere produces at `t = 2`. -/
lemma testSphere_mkHit (m : Material) :
    Sphere.mkHit ⟨⟨0, 0, -3⟩, 1, m⟩ testRay 2 = ⟨2, ⟨0, 0, -2⟩, ⟨0, 0, 1⟩, m⟩ := by
  have hat : testRay.at 2 = ⟨0, 0, -2⟩ := by
    norm_num [Ray.at, testRay, Ray.new]
  rw [Sphere.mkHit, hat]
  norm_num [Vector3.normalize, Vector3.norm, Vector3.norm_squared, Vector3.dot]

/-- `testRay` hits the unit sphere at `(0,0,-3)` at `t = 2` for any window
admitting `2`: discriminant `1`, first root accepted. -/
lemma testSphere_eval (m : Material) (Tm W : Option Fpr)
    (hTm : Tm.getD 0.0001 ≤ 2) (hW : ¬ gtTmax 2 W) :
    Sphere.get_hit ⟨⟨0, 0, -3⟩, 1, m⟩ testRay Tm W = some ⟨2, ⟨0, 0, -2⟩, ⟨0, 0, 1⟩, m⟩ := by
  unfold Sphere.get_hit
  rw [testSphere_disc, testSphere_root1, testSphere_mkHit, if_neg (by norm_num),
    if_neg (by push_neg; exact ⟨hTm, hW⟩)]

lemma sphRed_eval (Tm W : Option Fpr) (hTm : Tm.getD 0.0001 ≤ 2) (hW : ¬ gtTmax 2 W) :
    Body.get_hit (Body.sphere sphRed) testRay Tm W = some hitRed :=
  testSphere_eval matRed Tm W hTm hW

lemma sphBlue_eval (Tm W : Option Fpr) (hTm : Tm.getD 0.0001 ≤ 2) (hW : ¬ gtTmax 2 W) :
    Body.get_hit (Body.sphere sphBlue) testRay Tm W = some hitBlue :=
  testSphere_eval matBlue Tm W hTm hW

/-- Scanning the coincident red and blue spheres: the blue sphere, scanned
second, is queried with `closest = 2` and its equal `t = 2` passes
(`2 > 2` is false), so its hit replaces the red one. -/
lemma sceneRB_eval : Scene.get_hit sceneRB testRay none none = some hitBlue := by
  have h1 := sphRed_eval none none (by norm_num) (by simp [gtTmax])
  have h2 := sphBlue_eval none (some 2) (by norm_num) (by norm_num [gtTmax])
  show Scene.get_hit_go testRay none [Body.sphere sphRed, Body.sphere sphBlue] none none
      = some hitBlue
  rw [Scene.get_hit_go, h1]
  show Scene.get_hit_go testRay none [Body.sphere sphBlue] (some hitRed.t) (some hitRed)
      = some hitBlue
  have hrt : hitRed.t = 2 := rfl
  rw [hrt, Scene.get_hit_go, h2]
  rfl

lemma sceneRed_eval : Scene.get_hit sceneRed testRay none none = some hitRed := by
  have h1 := sphRed_eval none none (by norm_num) (by simp [gtTmax])
  show Scene.get_hit_go testRay none [Body.sphere sphRed] none none = some hitRed
  rw [Scene.get_hit_go, h1]
  rfl

lemma sceneRed_eval_window :
    Scene.get_hit sceneRed testRay (some 1) (some 3) = some hitRed := by
  have h1 := sphRed_eval (some 1) (some 3) (by norm_num) (by norm_num [gtTmax])
  show Scene.get_hit_go testRay (some 1) [Body.sphere sphRed] (some 3) none = some hitRed
  rw [Scene.get_hit_go, h1]
  rfl

lemma planeTest_ln : planeTest.ln rayPlane = -2 := by
  norm_num [Plane.ln, planeTest, Plane.new, Vector3.cross, Vector3.dot, rayPlane, Ray.new]

lemma planeTest_tHit : planeTest.tHit rayPlane = 1 := by
  rw [Plane.tHit, planeTest_ln]
  norm_num [planeTest, Plane.new, Vector3.cross, Vector3.dot, rayPlane, Ray.new]

lemma rayPlane_at : rayPlane.at 1 = ⟨1 / 2, 1 / 2, 0⟩ := by
  norm_num [Ray.at, rayPlane, Ray.new]

lemma planeTest_localX : planeTest.localX rayPlane = 1 := by
  rw [Plane.localX, planeTest_tHit, rayPlane_at]
  norm_num [planeTest, Plane.new, Vector3.dot]

lemma planeTest_localY : planeTest.localY rayPlane = 1 / 2 := by
  rw [Plane.localY, planeTest_tHit, rayPlane_at]
  norm_num [planeTest, Plane.new, Vector3.dot]

/-- `rayPlane` hits `planeTest` at `t = 1`, local coordinates `(1, 1/2)`,
carrying the non-unit normal `(0,0,2)`. -/
lemma planeTest_eval : Plane.get_hit planeTest rayPlane none none = some hitPlane := by
  unfold Plane.get_hit
  rw [planeTest_ln, planeTest_tHit, planeTest_localX, planeTest_localY, rayPlane_at]
  rw [if_neg (by norm_num), if_neg (by norm_num [gtTmax]),
    if_pos (by norm_num [planeTest, Plane.new])]
  norm_num [planeTest, Plane.new, hitPlane, Vector3.cross]

/- Norm and normalization lemmas. -/

lemma Vector3.norm_mul_self (v : Vector3) :
    v.norm * v.norm = v.x * v.x + v.y * v.y + v.z * v.z := by
  have h := Real.mul_self_sqrt (Vector3.norm_squared_nonneg v)
  simpa [Vector3.norm, Vector3.norm_squared, Vector3.dot] using h

lemma Vector3.norm_pos {v : Vector3} (h : 0 < v.norm_squared) : 0 < v.norm :=
  Real.sqrt_pos.mpr h

/-- A vector of positive squared norm normalizes to unit length. -/
lemma Vector3.normalize_norm {v : Vector3} (h : 0 < v.norm_squared) :
    Vector3.norm v.normalize = 1 := by
  have hn : 0 < v.norm := Vector3.norm_pos h
  have hns : Vector3.norm_squared v.normalize = 1 := by
    unfold Vector3.normalize Vector3.norm_squared Vector3.dot
    field_simp
    linarith [Vector3.norm_mul_self v]
  rw [Vector3.norm, hns, Real.sqrt_one]

/-- `normalize` is scaling by the reciprocal norm. -/
lemma Vector3.normalize_eq_smul (v : Vector3) :
    v.normalize = (Vector3.norm v)⁻¹ • v := by
  unfold Vector3.normalize
  simp only [Vector3.smul_def]
  ext <;> simp [div_eq_inv_mul]

/-- Lagrange identity for the cross product. -/
lemma Vector3.cross_norm_squared (x y : Vector3) :
    (x.cross y).norm_squared = x.norm_squared * y.norm_squared - (x.dot y) ^ 2 := by
  unfold Vector3.cross Vector3.norm_squared Vector3.dot
  ring

/- Sphere root algebra. -/

/-- Both candidate roots solve the sphere's quadratic (when the divisor `a`
is non-zero and the discriminant is non-negative). -/
lemma Sphere.root_key {s : Sphere} {ray : Ray} (ha : Sphere.qa ray ≠ 0)
    (hd : 0 ≤ s.discriminant ray) {t : Fpr}
    (ht : t = s.root1 ray ∨ t = s.root2 ray) :
    Sphere.qa ray * t ^ 2 + 2 * s.half_b ray * t + s.qc ray = 0 := by
  have hs : Real.sqrt (s.discriminant ray) ^ 2
      = s.half_b ray ^ 2 - Sphere.qa ray * s.qc ray := by
    rw [Real.sq_sqrt hd]
    rfl
  rcases ht with rfl | rfl <;>
    (simp only [Sphere.root1, Sphere.root2]; field_simp;
      linear_combination (Sphere.qa ray) ^ 2 * hs)

/-- The squared distance from the sphere's centre to the ray point at `t`,
in terms of the quadratic's coefficients. -/
lemma Sphere.dist_expand (s : Sphere) (ray : Ray) (t : Fpr) :
    Vector3.norm_squared (ray.at t - s.centre)
      = Sphere.qa ray * t ^ 2 + 2 * s.half_b ray * t + (s.qc ray + s.radius ^ 2) := by
  unfold Vector3.norm_squared Vector3.dot Ray.at Sphere.qa Sphere.half_b Sphere.qc Sphere.oc
  unfold Vector3.dot
  simp only [Vector3.add_def, Vector3.smul_def, Vector3.sub_def]
  ring

/-- Structure of any hit `Sphere::get_hit` returns. -/
lemma Sphere.get_hit_elim {s : Sphere} {ray : Ray} {tminO tmaxO : Option Fpr} {h : Hit}
    (hh : s.get_hit ray tminO tmaxO = some h) :
    0 ≤ s.discriminant ray ∧ (h.t = s.root1 ray ∨ h.t = s.root2 ray) ∧
    h.position = ray.at h.t ∧ h.normal = (h.position - s.centre).normalize := by
  unfold Sphere.get_hit at hh
  split_ifs at hh with h1 h2 h3
  · cases hh
    exact ⟨not_lt.mp h1, Or.inr rfl, rfl, rfl⟩
  · cases hh
    exact ⟨not_lt.mp h1, Or.inl rfl, rfl, rfl⟩

/-- Any sphere hit lies at distance `|radius|` from the centre (non-degenerate
ray direction). -/
lemma Sphere.hit_dist {s : Sphere} {ray : Ray} {tminO tmaxO : Option Fpr} {h : Hit}
    (hh : s.get_hit ray tminO tmaxO = some h) (ha : Sphere.qa ray ≠ 0) :
    Vector3.norm_squared (h.position - s.centre) = s.radius ^ 2 := by
  obtain ⟨hd, hroot, hpos, -⟩ := Sphere.get_hit_elim hh
  rw [hpos, Sphere.dist_expand]
  have hk := Sphere.root_key ha hd hroot
  linarith

/- Miscellaneous helper lemmas. -/

@[simp] lemma Ray.new_chroma_chroma (o d : Vector3) (c : Chroma) :
    (Ray.new_chroma o d c).chroma = c := rfl

@[simp] lemma Chroma.fromIdx_zero : Chroma.fromIdx 0 = Chroma.Red := rfl

@[simp] lemma Chroma.fromIdx_one : Chroma.fromIdx 1 = Chroma.Green := rfl

@[simp] lemma Chroma.fromIdx_two : Chroma.fromIdx 2 = Chroma.Blue := rfl

/-- Every material's response has at most 3 entries. -/
lemma response_length_le_three (m : Material) (ray : Ray) (hit : Hit) (rs : RandSrc) :
    (Material.response m ray hit rs).length ≤ 3 := by
  cases m with
  | Diffuse c => simp [Material.response, Diffuse.response]
  | Metal c =>
    simp only [Material.response, Metal.response]
    split_ifs <;> simp
  | Dielectric c ri =>
    simp only [Material.response, Dielectric.response]
    split_ifs <;> simp
  | DispersiveDielectric c ris =>
    simp only [Material.response, DispersiveDielectric.response]
    rcases hc : ray.chroma <;> simp [hc]

lemma testRay_dir_ne : testRay.direction ≠ Vector3.zeros := by
  intro hc
  have := congrArg Vector3.z hc
  norm_num [testRay, Ray.new, Vector3.zeros] at this

lemma testRay_normalize : testRay.direction.normalize = ⟨0, 0, -1⟩ := by
  norm_num [testRay, Ray.new, Vector3.normalize, Vector3.norm, Vector3.norm_squared,
    Vector3.dot]

/- Claim theorems. -/

/-- C1: with a positive depth budget and a scene hit, the integrator calls
the hit material's `response` and returns the sum, over every
`(attenuation, scattered)` pair of the returned sequence (which has at most 3
entries), of the componentwise product of the attenuation with the recursive
colour of the scattered ray at `depth - 1`; an empty sequence yields black. -/
theorem integrator_hit_sums_response (scene : Scene) (rng : List ℕ → RandSrc) (ray : Ray)
    (depth : ℕ) (hit : Hit) (hdep : 0 < depth)
    (hh : Scene.get_hit scene ray none none = some hit) :
    get_ray_colour scene ray rng depth
      = sumColours ((Material.response hit.material ray hit (rng [])).enum.map
          (fun p => Vector3.component_mul
            (get_ray_colour scene p.2.2 (fun path => rng (p.1 :: path)) (depth - 1)) p.2.1)) ∧
    (Material.response hit.material ray hit (rng []) = [] →
      get_ray_colour scene ray rng depth = Vector3.zeros) ∧
    (Material.response hit.material ray hit (rng [])).length ≤ 3 := by
  obtain ⟨d, rfl⟩ : ∃ d, depth = d + 1 :=
    ⟨depth - 1, (Nat.succ_pred_eq_of_pos hdep).symm⟩
  refine ⟨?_, ?_, response_length_le_three _ _ _ _⟩
  · simp only [get_ray_colour, hh, Nat.add_sub_cancel]
  · intro hresp
    simp only [get_ray_colour, hh, hresp]
    rfl

/-- Witness for C1: the one-sphere scene at depth 1. -/
theorem integrator_hit_sums_response_witness :
    0 < 1 ∧ Scene.get_hit sceneRed testRay none none = some hitRed ∧
    get_ray_colour sceneRed testRay rng0 1
      = sumColours ((Material.response hitRed.material testRay hitRed (rng0 [])).enum.map
          (fun p => Vector3.component_mul
            (get_ray_colour sceneRed p.2.2 (fun path => rng0 (p.1 :: path)) (1 - 1)) p.2.1)) :=
  ⟨Nat.one_pos, sceneRed_eval,
    (integrator_hit_sums_response sceneRed rng0 testRay 1 hitRed Nat.one_pos sceneRed_eval).1⟩

/-- C2 counterexample: the two coincident spheres both hit `testRay` at
exactly `t = 2`, yet the scene's scan returns the hit of the *second* body
(`sphBlue`), not the first-encountered one — the claimed tie-break is wrong. -/
theorem scene_tie_cex :
    Body.get_hit (Body.sphere sphRed) testRay none none = some hitRed ∧
    Body.get_hit (Body.sphere sphBlue) testRay none none = some hitBlue ∧
    hitRed.t = hitBlue.t ∧
    Scene.get_hit sceneRB testRay none none = some hitBlue ∧
    hitBlue ≠ hitRed := by
  refine ⟨sphRed_eval none none (by norm_num) (by simp [gtTmax]),
    sphBlue_eval none none (by norm_num) (by simp [gtTmax]), rfl, sceneRB_eval, ?_⟩
  intro hcontra
  have := congrArg Hit.material hcontra
  norm_num [hitBlue, hitRed, matBlue, matRed] at this

/-- C2 (amended): the scan with its shrinking `closest` bound returns the
globally nearest full-window hit — `none` exactly when every body misses —
and on an exact `t` tie the *last*-encountered body in scan order wins: the
returned hit belongs to a body all of whose successors hit strictly farther. -/
theorem scene_get_hit_nearest (s : Scene) (ray : Ray) (tminO tmaxO : Option Fpr) :
    (Scene.get_hit s ray tminO tmaxO
        = Scene.get_hit_go ray tminO s.bodies tmaxO none) ∧
    (Scene.get_hit s ray tminO tmaxO = none ↔
      ∀ b ∈ s.bodies, b.get_hit ray tminO tmaxO = none) ∧
    (∀ h, Scene.get_hit s ray tminO tmaxO = some h →
      (∀ b ∈ s.bodies, ∀ h', b.get_hit ray tminO tmaxO = some h' → h.t ≤ h'.t) ∧
      (∃ pre b post, s.bodies = pre ++ b :: post ∧
        b.get_hit ray tminO tmaxO = some h ∧
        ∀ b' ∈ post, ∀ h', b'.get_hit ray tminO tmaxO = some h' → h.t < h'.t)) := by
  obtain ⟨H1, H2⟩ := Scene.get_hit_go_spec ray tminO tmaxO s.bodies tmaxO none
    (tmaxSub_refl tmaxO) (fun _ => rfl) (fun h0 hc => Option.noConfusion hc)
  refine ⟨rfl,
    ⟨fun hn => (H1 hn).2, fun hall => Scene.get_hit_go_none ray tminO tmaxO s.bodies hall⟩,
    ?_⟩
  intro h hh
  obtain ⟨-, hmin, hprov⟩ := H2 h hh
  rcases hprov with ⟨hacc, -⟩ | hex
  · exact Option.noConfusion hacc
  · exact ⟨hmin, hex⟩

/-- Witness for the amended C2 at the coincident-spheres scene. -/
theorem scene_get_hit_nearest_witness :
    Scene.get_hit sceneRB testRay none none = some hitBlue ∧
    (∀ b ∈ sceneRB.bodies, ∀ h', b.get_hit testRay none none = some h' →
      hitBlue.t ≤ h'.t) ∧
    (∃ pre b post, sceneRB.bodies = pre ++ b :: post ∧
      b.get_hit testRay none none = some hitBlue ∧
      ∀ b' ∈ post, ∀ h', b'.get_hit testRay none none = some h' → hitBlue.t < h'.t) := by
  refine ⟨sceneRB_eval, ?_⟩
  exact (scene_get_hit_nearest sceneRB testRay none none).2.2 hitBlue sceneRB_eval

/-- C3: Metal's response is empty iff the normalized incoming direction dotted
with the hit normal is non-negative; otherwise it is exactly one entry, the
mirror reflection `d - 2(d·n)n` attenuated by the metal's colour. -/
theorem metal_response_spec (colour : Colour) (ray : Ray) (hit : Hit) (rs : RandSrc) :
    (0 ≤ (ray.direction.normalize).dot hit.normal →
      Material.response (Material.Metal colour) ray hit rs = []) ∧
    ((ray.direction.normalize).dot hit.normal < 0 →
      Material.response (Material.Metal colour) ray hit rs
        = [(colour, Ray.new hit.position
            (ray.direction.normalize
              - (2 * (ray.direction.normalize).dot hit.normal) • hit.normal))]) := by
  constructor
  · intro hk
    simp [Material.response, Metal.response, not_lt.mpr hk]
  · intro hk
    simp [Material.response, Metal.response, hk]

/-- Witness for C3: `testRay` reflecting at `hitRed`. -/
theorem metal_response_spec_witness :
    (testRay.direction.normalize).dot hitRed.normal < 0 ∧
    Material.response (Material.Metal ⟨1, 1, 1⟩) testRay hitRed rs0
      = [(⟨1, 1, 1⟩, Ray.new hitRed.position
          (testRay.direction.normalize
            - (2 * (testRay.direction.normalize).dot hitRed.normal) • hitRed.normal))] := by
  have hk : (testRay.direction.normalize).dot hitRed.normal < 0 := by
    rw [testRay_normalize]
    norm_num [hitRed, Vector3.dot]
  exact ⟨hk, (metal_response_spec ⟨1, 1, 1⟩ testRay hitRed rs0).2 hk⟩

/-- C4 counterexample: on the all-black dispersive material, a `White` ray's
three response entries all carry the zero attenuation, which does not have
exactly one non-zero colour channel — the claimed "exactly one" fails. -/
theorem dispersive_cex :
    (Material.response cexDispersive cexRayWhite cexHit rs0).map Prod.fst
      = [Vector3.zeros, Vector3.zeros, Vector3.zeros] ∧
    ¬ ∃! c : Fin 3, Vector3.zeros.get c ≠ 0 := by
  constructor
  · simp [Material.response, cexDispersive, DispersiveDielectric.response, cexRayWhite,
      Ray.new_chroma, apply_ite Prod.fst, Vector3.zeros]
  · rintro ⟨c, hc, -⟩
    apply hc
    fin_cases c <;> rfl

/-- C4 (amended): a `White`-chroma ray yields exactly 3 entries, the entry for
channel `c` carrying attenuation equal to the material colour restricted to
channel `c` (the other two channels zeroed — so at most one non-zero channel,
exactly one whenever that colour channel is non-zero) and a continuation ray
tagged with the matching chroma; a `Red`/`Green`/`Blue` ray yields exactly 1
such entry for its own channel. -/
theorem dispersive_split_spec (colour : Colour) (ris : Fin 3 → Fpr) (ray : Ray)
    (hit : Hit) (rnd : Fin 3 → Fpr) :
    (ray.chroma = Chroma.White →
      (DispersiveDielectric.response colour ris ray hit rnd).length = 3 ∧
      (DispersiveDielectric.response colour ris ray hit rnd).map
          (fun p => (p.1, p.2.chroma))
        = [(⟨colour.x, 0, 0⟩, Chroma.Red), (⟨0, colour.y, 0⟩, Chroma.Green),
            (⟨0, 0, colour.z⟩, Chroma.Blue)]) ∧
    (∀ c : Fin 3, ray.chroma = Chroma.fromIdx c →
      (DispersiveDielectric.response colour ris ray hit rnd).length = 1 ∧
      (DispersiveDielectric.response colour ris ray hit rnd).map
          (fun p => (p.1, p.2.chroma))
        = [(Vector3.zeros.setChannel c (colour.get c), Chroma.fromIdx c)]) := by
  constructor
  · intro hW
    constructor
    · simp [DispersiveDielectric.response, hW]
    · simp [DispersiveDielectric.response, hW,
        apply_ite (fun p : Colour × Ray => (p.1, p.2.chroma)), Vector3.zeros]
  · intro c hc
    fin_cases c <;> simp only [Chroma.fromIdx_zero, Chroma.fromIdx_one,
      Chroma.fromIdx_two] at hc ⊢ <;>
      exact ⟨by simp [DispersiveDielectric.response, hc],
        by simp [DispersiveDielectric.response, hc,
          apply_ite (fun p : Colour × Ray => (p.1, p.2.chroma)), Vector3.zeros]⟩

/-- Witness for the amended C4: a `White` ray on a white dispersive material. -/
theorem dispersive_split_spec_witness :
    cexRayWhite.chroma = Chroma.White ∧
    (DispersiveDielectric.response ⟨1, 1, 1⟩ (fun _ => 3 / 2) cexRayWhite cexHit
        (fun _ => 0)).length = 3 ∧
    (DispersiveDielectric.response ⟨1, 1, 1⟩ (fun _ => 3 / 2) cexRayWhite cexHit
        (fun _ => 0)).map (fun p => (p.1, p.2.chroma))
      = [(⟨1, 0, 0⟩, Chroma.Red), (⟨0, 1, 0⟩, Chroma.Green),
          (⟨0, 0, 1⟩, Chroma.Blue)] := by
  refine ⟨rfl, ?_⟩
  exact (dispersive_split_spec ⟨1, 1, 1⟩ (fun _ => 3 / 2) cexRayWhite cexHit
    (fun _ => 0)).1 rfl

/-- C5: the sphere intersection rejects a negative discriminant, tries the
smaller root first, falls back to the larger root, rejects when both lie
outside the window, and any returned hit carries the outward normal
`(position - centre).normalize()` — never flipped for interior hits. -/
theorem sphere_get_hit_spec (s : Sphere) (ray : Ray) (tminO tmaxO : Option Fpr) :
    (s.discriminant ray < 0 → s.get_hit ray tminO tmaxO = none) ∧
    (0 ≤ s.discriminant ray →
      tminO.getD 0.0001 ≤ s.root1 ray → ¬ gtTmax (s.root1 ray) tmaxO →
      s.get_hit ray tminO tmaxO = some (s.mkHit ray (s.root1 ray))) ∧
    (0 ≤ s.discriminant ray →
      (s.root1 ray < tminO.getD 0.0001 ∨ gtTmax (s.root1 ray) tmaxO) →
      tminO.getD 0.0001 ≤ s.root2 ray → ¬ gtTmax (s.root2 ray) tmaxO →
      s.get_hit ray tminO tmaxO = some (s.mkHit ray (s.root2 ray))) ∧
    (0 ≤ s.discriminant ray →
      (s.root1 ray < tminO.getD 0.0001 ∨ gtTmax (s.root1 ray) tmaxO) →
      (s.root2 ray < tminO.getD 0.0001 ∨ gtTmax (s.root2 ray) tmaxO) →
      s.get_hit ray tminO tmaxO = none) ∧
    (∀ h, s.get_hit ray tminO tmaxO = some h →
      h.normal = (h.position - s.centre).normalize ∧ h.position = ray.at h.t) := by
  refine ⟨?_, ?_, ?_, ?_, ?_⟩
  · intro hd
    unfold Sphere.get_hit
    rw [if_pos hd]
  · intro hd h1 h2
    unfold Sphere.get_hit
    rw [if_neg (not_lt.mpr hd), if_neg (by push_neg; exact ⟨h1, h2⟩)]
  · intro hd hrej h1 h2
    unfold Sphere.get_hit
    rw [if_neg (not_lt.mpr hd), if_pos hrej, if_neg (by push_neg; exact ⟨h1, h2⟩)]
  · intro hd hrej1 hrej2
    unfold Sphere.get_hit
    rw [if_neg (not_lt.mpr hd), if_pos hrej1, if_pos hrej2]
  · intro h hh
    obtain ⟨-, -, hpos, hnorm⟩ := Sphere.get_hit_elim hh
    exact ⟨hnorm, hpos⟩

/-- Witness for C5: the test sphere accepts its first root `t = 2`. -/
theorem sphere_get_hit_spec_witness :
    (0 : ℝ) ≤ Sphere.discriminant sphRed testRay ∧
    (none : Option Fpr).getD 0.0001 ≤ Sphere.root1 sphRed testRay ∧
    ¬ gtTmax (Sphere.root1 sphRed testRay) (none : Option Fpr) ∧
    Sphere.get_hit sphRed testRay none none
      = some (Sphere.mkHit sphRed testRay (Sphere.root1 sphRed testRay)) := by
  have hd : Sphere.discriminant sphRed testRay = 1 := testSphere_disc matRed
  have hr : Sphere.root1 sphRed testRay = 2 := testSphere_root1 matRed
  refine ⟨by rw [hd]; norm_num, by rw [hr]; norm_num, by simp [gtTmax], ?_⟩
  exact (sphere_get_hit_spec sphRed testRay none none).2.1 (by rw [hd]; norm_num)
    (by rw [hr]; norm_num) (by simp [gtTmax])

/-- C6: the plane intersection rejects near-parallel rays
(`|normal . direction| < 1e-4`), accepts only strict-interior local
coordinates (so edge-exact values are misses), and otherwise returns the hit
at `tHit`. -/
theorem plane_get_hit_spec (p : Plane) (ray : Ray) (tminO tmaxO : Option Fpr) :
    (|p.ln ray| < 0.0001 → p.get_hit ray tminO tmaxO = none) ∧
    (∀ h, p.get_hit ray tminO tmaxO = some h →
      0 < p.localX ray ∧ p.localX ray < p.extents.1 ∧
      0 < p.localY ray ∧ p.localY ray < p.extents.2) ∧
    ((p.localX ray = 0 ∨ p.localX ray = p.extents.1 ∨
        p.localY ray = 0 ∨ p.localY ray = p.extents.2) →
      p.get_hit ray tminO tmaxO = none) ∧
    (0.0001 ≤ |p.ln ray| → tminO.getD 0.0001 ≤ p.tHit ray →
      ¬ gtTmax (p.tHit ray) tmaxO →
      0 < p.localX ray → p.localX ray < p.extents.1 →
      0 < p.localY ray → p.localY ray < p.extents.2 →
      p.get_hit ray tminO tmaxO
        = some ⟨p.tHit ray, ray.at (p.tHit ray), p.normal, p.material⟩) := by
  refine ⟨?_, ?_, ?_, ?_⟩
  · intro hpar
    unfold Plane.get_hit
    rw [if_pos hpar]
  · intro h hh
    unfold Plane.get_hit at hh
    split_ifs at hh with h1 h2 h3
    exact h3
  · intro hedge
    unfold Plane.get_hit
    split_ifs with h1 h2 h3
    · rfl
    · rfl
    · exfalso
      obtain ⟨c1, c2, c3, c4⟩ := h3
      rcases hedge with he | he | he | he <;> linarith
    · rfl
  · intro hln ht1 ht2 hx1 hx2 hy1 hy2
    unfold Plane.get_hit
    rw [if_neg (not_lt.mpr hln), if_neg (by push_neg; exact ⟨ht1, ht2⟩),
      if_pos ⟨hx1, hx2, hy1, hy2⟩]

/-- Witness for C6: `rayPlane` passes all of `planeTest`'s strict checks. -/
theorem plane_get_hit_spec_witness :
    (0.0001 : ℝ) ≤ |planeTest.ln rayPlane| ∧
    (none : Option Fpr).getD 0.0001 ≤ planeTest.tHit rayPlane ∧
    ¬ gtTmax (planeTest.tHit rayPlane) (none : Option Fpr) ∧
    0 < planeTest.localX rayPlane ∧ planeTest.localX rayPlane < planeTest.extents.1 ∧
    0 < planeTest.localY rayPlane ∧ planeTest.localY rayPlane < planeTest.extents.2 ∧
    Plane.get_hit planeTest rayPlane none none
      = some ⟨planeTest.tHit rayPlane, rayPlane.at (planeTest.tHit rayPlane),
          planeTest.normal, planeTest.material⟩ := by
  have hext1 : planeTest.extents.1 = 2 := rfl
  have hext2 : planeTest.extents.2 = 2 := rfl
  refine ⟨by rw [planeTest_ln]; norm_num, by rw [planeTest_tHit]; norm_num,
    by simp [gtTmax], by rw [planeTest_localX]; norm_num,
    by rw [planeTest_localX, hext1]; norm_num,
    by rw [planeTest_localY]; norm_num,
    by rw [planeTest_localY, hext2]; norm_num, ?_⟩
  exact (plane_get_hit_spec planeTest rayPlane none none).2.2.2
    (by rw [planeTest_ln]; norm_num) (by rw [planeTest_tHit]; norm_num)
    (by simp [gtTmax]) (by rw [planeTest_localX]; norm_num)
    (by rw [planeTest_localX, hext1]; norm_num)
    (by rw [planeTest_localY]; norm_num)
    (by rw [planeTest_localY, hext2]; norm_num)

/-- C7: any hit returned by the scene over an explicit window `tmin < tmax`
has its parameter inside the closed interval `[tmin, tmax]`. -/
theorem scene_hit_t_in_window (s : Scene) (ray : Ray) (tmin tmax : Fpr) (h : Hit)
    (hlt : tmin < tmax)
    (hh : Scene.get_hit s ray (some tmin) (some tmax) = some h) :
    tmin ≤ h.t ∧ h.t ≤ tmax := by
  obtain ⟨-, H2⟩ := Scene.get_hit_go_spec ray (some tmin) (some tmax) s.bodies
    (some tmax) none (tmaxSub_refl _) (fun _ => rfl) (fun h0 hc => Option.noConfusion hc)
  obtain ⟨-, -, hprov⟩ := H2 h hh
  rcases hprov with ⟨hacc, -⟩ | ⟨pre, b, post, -, hfull, -⟩
  · exact Option.noConfusion hacc
  · have hb := Body.body_hit_t_bounds hfull
    exact ⟨by simpa using hb.1, by simpa [gtTmax, not_lt] using hb.2⟩

/-- Witness for C7: the one-sphere scene over the window `[1, 3]`. -/
theorem scene_hit_t_in_window_witness :
    (1 : ℝ) < 3 ∧ Scene.get_hit sceneRed testRay (some 1) (some 3) = some hitRed ∧
    ((1 : ℝ) ≤ hitRed.t ∧ hitRed.t ≤ 3) :=
  ⟨by norm_num, sceneRed_eval_window,
    scene_hit_t_in_window sceneRed testRay 1 3 hitRed (by norm_num) sceneRed_eval_window⟩

/-- C8: at depth 0 the integrator returns black for every ray, scene and
random oracle; the integrator is total by construction — `get_ray_colour` is
defined by structural recursion on the depth budget, each recursive call
consuming one unit. -/
theorem integrator_depth_zero (scene : Scene) (ray : Ray) (rng : List ℕ → RandSrc) :
    get_ray_colour scene ray rng 0 = Vector3.zeros := rfl

/-- C9 counterexample: a plane hit can carry a non-unit normal — `planeTest`
stores `normal = x × y = (0,0,2)`, of length 2, and its hits return it
unchanged. -/
theorem plane_normal_cex :
    Plane.get_hit planeTest rayPlane none none = some hitPlane ∧
    hitPlane.normal = ⟨0, 0, 2⟩ ∧
    Vector3.norm hitPlane.normal = 2 ∧
    Vector3.norm hitPlane.normal ≠ 1 := by
  have hns : Vector3.norm_squared (⟨0, 0, 2⟩ : Vector3) = 4 := by
    norm_num [Vector3.norm_squared, Vector3.dot]
  have hn : Vector3.norm (⟨0, 0, 2⟩ : Vector3) = 2 := by
    rw [Vector3.norm, hns, show (4 : ℝ) = 2 ^ 2 by norm_num,
      Real.sqrt_sq (by norm_num : (0 : ℝ) ≤ 2)]
  refine ⟨planeTest_eval, rfl, hn, ?_⟩
  rw [show hitPlane.normal = (⟨0, 0, 2⟩ : Vector3) from rfl, hn]
  norm_num

/-- C9 (amended): a sphere hit under a non-degenerate ray direction and
non-zero radius carries a unit normal that is a positive multiple of
`position - centre` (pointing away from the interior); a plane hit carries
exactly the stored `x × y` normal, which has unit length whenever the axes
are orthonormal. -/
theorem hit_normal_spec :
    (∀ (s : Sphere) (ray : Ray) (tminO tmaxO : Option Fpr) (h : Hit),
      s.get_hit ray tminO tmaxO = some h →
      ray.direction ≠ Vector3.zeros → s.radius ≠ 0 →
      Vector3.norm h.normal = 1 ∧
      ∃ k : Fpr, 0 < k ∧ h.normal = k • (h.position - s.centre)) ∧
    (∀ (o x y : Vector3) (ext : Fpr × Fpr) (m : Material) (ray : Ray)
        (tminO tmaxO : Option Fpr) (h : Hit),
      (Plane.new o x y ext m).get_hit ray tminO tmaxO = some h →
      h.normal = x.cross y ∧
      (x.norm_squared = 1 → y.norm_squared = 1 → x.dot y = 0 →
        Vector3.norm h.normal = 1)) := by
  constructor
  · intro s ray tminO tmaxO h hh hdir hrad
    have ha : Sphere.qa ray ≠ 0 := ne_of_gt (Vector3.dot_self_pos _ hdir)
    have hns : Vector3.norm_squared (h.position - s.centre) = s.radius ^ 2 :=
      Sphere.hit_dist hh ha
    have hpos : 0 < Vector3.norm_squared (h.position - s.centre) := by
      rw [hns]
      rcases lt_or_gt_of_ne hrad with hr | hr <;> nlinarith
    obtain ⟨-, -, -, hnorm⟩ := Sphere.get_hit_elim hh
    refine ⟨by rw [hnorm]; exact Vector3.normalize_norm hpos,
      ⟨(Vector3.norm (h.position - s.centre))⁻¹,
        inv_pos.mpr (Vector3.norm_pos hpos), ?_⟩⟩
    rw [hnorm, Vector3.normalize_eq_smul]
  · intro o x y ext m ray tminO tmaxO h hh
    have hnrm : h.normal = (Plane.new o x y ext m).normal := by
      unfold Plane.get_hit at hh
      split_ifs at hh with h1 h2 h3
      cases hh
      rfl
    have hxy : (Plane.new o x y ext m).normal = x.cross y := rfl
    refine ⟨by rw [hnrm, hxy], ?_⟩
    intro hx hy hdot
    rw [hnrm, hxy, Vector3.norm, Vector3.cross_norm_squared, hx, hy, hdot]
    norm_num

/-- Witness for the amended C9: the test sphere's hit has the unit outward
normal `(0,0,1)`. -/
theorem hit_normal_spec_witness :
    Sphere.get_hit sphRed testRay none none = some hitRed ∧
    testRay.direction ≠ Vector3.zeros ∧ sphRed.radius ≠ 0 ∧
    (Vector3.norm hitRed.normal = 1 ∧
      ∃ k : Fpr, 0 < k ∧ hitRed.normal = k • (hitRed.position - sphRed.centre)) := by
  have hh : Sphere.get_hit sphRed testRay none none = some hitRed :=
    testSphere_eval matRed none none (by norm_num) (by simp [gtTmax])
  have hrad : sphRed.radius ≠ 0 := by norm_num [sphRed]
  exact ⟨hh, testRay_dir_ne, hrad,
    hit_normal_spec.1 sphRed testRay none none hitRed hh testRay_dir_ne hrad⟩

/-- C10: the plane divides by `normal . direction` only behind the
`|ln| >= 1e-4` guard, so the divisor is non-zero on every path that returns a
hit; and with a non-zero ray direction the sphere's divisor
`a = direction . direction` is strictly positive. -/
theorem division_safety :
    (∀ (p : Plane) (ray : Ray) (tminO tmaxO : Option Fpr) (h : Hit),
      p.get_hit ray tminO tmaxO = some h →
      0.0001 ≤ |p.ln ray| ∧ p.ln ray ≠ 0) ∧
    (∀ ray : Ray, ray.direction ≠ Vector3.zeros → 0 < Sphere.qa ray) := by
  constructor
  · intro p ray tminO tmaxO h hh
    unfold Plane.get_hit at hh
    split_ifs at hh with h1 h2 h3
    have habs : 0.0001 ≤ |p.ln ray| := not_lt.mp h1
    refine ⟨habs, fun hz => ?_⟩
    rw [hz] at habs
    norm_num at habs
  · intro ray hdir
    exact Vector3.dot_self_pos _ hdir

/-- Witness for C10: the guard holds on `planeTest`'s hit, and `testRay`'s
divisor is positive. -/
theorem division_safety_witness :
    Plane.get_hit planeTest rayPlane none none = some hitPlane ∧
    (0.0001 ≤ |planeTest.ln rayPlane| ∧ planeTest.ln rayPlane ≠ 0) ∧
    testRay.direction ≠ Vector3.zeros ∧ 0 < Sphere.qa testRay :=
  ⟨planeTest_eval,
    division_safety.1 planeTest rayPlane none none hitPlane planeTest_eval,
    testRay_dir_ne, division_safety.2 testRay testRay_dir_ne⟩

end Feor
